import Mathlib

/-!
Shallow embedding of `src/explorer_parser.rs` from the `ecat-utils`
repository: the command grammar (built on nom combinators), the CoE value
codec (little-endian byte decoding and rendering, byte encoding of write
values), and the type-tag registry, together with theorems settling the
specification claims.

Rust `&str` input is modelled as `List Char`; wire bytes as `Fin 256`;
`u8`/`u16`/`u64` values as `Nat`; `i8`..`i64` values as `Int`;
`f32`/`f64` values by their IEEE-754 bit patterns (`Nat`).  Fallible Rust
functions returning `Result<_, ()>` become `Except Unit _`; nom parsers
`&str -> IResult<&str, T>` become `List Char → Option (List Char × T)`.
-/

namespace Ecat

/-- A wire byte. -/
abbrev Byte := Fin 256

/-- Truncate a natural number to one byte, as Rust's `as u8` / `to_le_bytes` do. -/
def byte (n : Nat) : Byte := ⟨n % 256, Nat.mod_lt _ (by norm_num)⟩

/-- Little-endian interpretation of a byte list as a natural number. -/
def leNat : List Byte → Nat
  | [] => 0
  | b :: bs => b.val + 256 * leNat bs

/-- Two's-complement reading of a little-endian `w`-byte value `n < 2 ^ (8 * w)`,
as Rust's `iN::from_le_bytes`. -/
def twosComplement (w n : Nat) : Int :=
  if n < 2 ^ (8 * w - 1) then (n : Int) else (n : Int) - 2 ^ (8 * w)

/-- The `w` little-endian bytes of a natural number, as Rust's `uN::to_le_bytes`. -/
def natLeBytes : Nat → Nat → List Byte
  | 0, _ => []
  | w + 1, n => byte n :: natLeBytes w (n / 256)

/-- The `w` little-endian two's-complement bytes of an integer, as Rust's
`iN::to_le_bytes`. -/
def intLeBytes (w : Nat) (i : Int) : List Byte :=
  natLeBytes w (i % (2 ^ (8 * w))).toNat

/-- `u8_try_from_le_bytes`: Rust takes the first 1-byte chunk if present
(`bytes.first_chunk::<1>()`), else errors. -/
def u8_try_from_le_bytes (bytes : List Byte) : Except Unit Nat :=
  if 1 ≤ bytes.length then .ok (leNat (bytes.take 1)) else .error ()

/-- `u16_try_from_le_bytes`: first 2 bytes little-endian, error when fewer. -/
def u16_try_from_le_bytes (bytes : List Byte) : Except Unit Nat :=
  if 2 ≤ bytes.length then .ok (leNat (bytes.take 2)) else .error ()

/-- `u32_try_from_le_bytes`: first 4 bytes little-endian, error when fewer. -/
def u32_try_from_le_bytes (bytes : List Byte) : Except Unit Nat :=
  if 4 ≤ bytes.length then .ok (leNat (bytes.take 4)) else .error ()

/-- `u64_try_from_le_bytes`: first 8 bytes little-endian, error when fewer. -/
def u64_try_from_le_bytes (bytes : List Byte) : Except Unit Nat :=
  if 8 ≤ bytes.length then .ok (leNat (bytes.take 8)) else .error ()

/-- `i8_try_from_le_bytes`: first byte, two's complement. -/
def i8_try_from_le_bytes (bytes : List Byte) : Except Unit Int :=
  if 1 ≤ bytes.length then .ok (twosComplement 1 (leNat (bytes.take 1))) else .error ()

/-- `i16_try_from_le_bytes`: first 2 bytes little-endian, two's complement. -/
def i16_try_from_le_bytes (bytes : List Byte) : Except Unit Int :=
  if 2 ≤ bytes.length then .ok (twosComplement 2 (leNat (bytes.take 2))) else .error ()

/-- `i32_try_from_le_bytes`: first 4 bytes little-endian, two's complement. -/
def i32_try_from_le_bytes (bytes : List Byte) : Except Unit Int :=
  if 4 ≤ bytes.length then .ok (twosComplement 4 (leNat (bytes.take 4))) else .error ()

/-- `i64_try_from_le_bytes`: first 8 bytes little-endian, two's complement. -/
def i64_try_from_le_bytes (bytes : List Byte) : Except Unit Int :=
  if 8 ≤ bytes.length then .ok (twosComplement 8 (leNat (bytes.take 8))) else .error ()

/-- `bool_try_from_le_bytes`: per the source, reads one byte; `0` is falsey and
anything else truthy. -/
def bool_try_from_le_bytes (bytes : List Byte) : Except Unit Bool :=
  (u8_try_from_le_bytes bytes).map (fun n => n != 0)

/-- `f32_try_from_le_bytes`, modelled on the bit-pattern level: the first 4
bytes, little-endian, as the IEEE-754 binary32 pattern; error when fewer. -/
def f32_try_from_le_bytes (bytes : List Byte) : Except Unit Nat :=
  if 4 ≤ bytes.length then .ok (leNat (bytes.take 4)) else .error ()

/-- `f64_try_from_le_bytes`, modelled on the bit-pattern level: the first 8
bytes, little-endian, as the IEEE-754 binary64 pattern; error when fewer. -/
def f64_try_from_le_bytes (bytes : List Byte) : Except Unit Nat :=
  if 8 ≤ bytes.length then .ok (leNat (bytes.take 8)) else .error ()

/-- `arr_u8_try_from_le_bytes`: the source returns the whole buffer unchanged,
never failing. -/
def arr_u8_try_from_le_bytes (bytes : List Byte) : Except Unit (List Byte) :=
  .ok bytes

/-- Whether a byte is a UTF-8 continuation byte (`0x80..0xBF`). -/
def isCont (b : Byte) : Bool := 0x80 ≤ b.val && b.val < 0xC0

/-- Scalar value of a UTF-8 continuation byte. -/
def contVal (b : Byte) : Nat := b.val - 0x80

/-- Strict UTF-8 decoding, as validated by Rust's `String::from_utf8`:
rejects overlong forms, surrogate encodings and scalars above `0x10FFFF`. -/
def utf8Decode : List Byte → Option (List Char)
  | [] => some []
  | b :: bs =>
    if b.val < 0x80 then
      (utf8Decode bs).map (Char.ofNat b.val :: ·)
    else if b.val < 0xC2 then none
    else if b.val < 0xE0 then
      match bs with
      | b1 :: rest =>
        if isCont b1 then
          (utf8Decode rest).map (Char.ofNat ((b.val - 0xC0) * 0x40 + contVal b1) :: ·)
        else none
      | _ => none
    else if b.val < 0xF0 then
      match bs with
      | b1 :: b2 :: rest =>
        if isCont b1 && isCont b2
            && (b.val != 0xE0 || 0xA0 ≤ b1.val)
            && (b.val != 0xED || b1.val < 0xA0) then
          (utf8Decode rest).map
            (Char.ofNat ((b.val - 0xE0) * 0x1000 + contVal b1 * 0x40 + contVal b2) :: ·)
        else none
      | _ => none
    else if b.val < 0xF5 then
      match bs with
      | b1 :: b2 :: b3 :: rest =>
        if isCont b1 && isCont b2 && isCont b3
            && (b.val != 0xF0 || 0x90 ≤ b1.val)
            && (b.val != 0xF4 || b1.val < 0x90) then
          (utf8Decode rest).map
            (Char.ofNat ((b.val - 0xF0) * 0x40000 + contVal b1 * 0x1000
              + contVal b2 * 0x40 + contVal b3) :: ·)
        else none
      | _ => none
    else none
  termination_by bs => bs.length

/-- UTF-8 encoding of one scalar value, as Rust's `str::as_bytes` exposes it. -/
def utf8EncodeChar (c : Char) : List Byte :=
  let n := c.toNat
  if n < 0x80 then [byte n]
  else if n < 0x800 then [byte (0xC0 + n / 0x40), byte (0x80 + n % 0x40)]
  else if n < 0x10000 then
    [byte (0xE0 + n / 0x1000), byte (0x80 + n / 0x40 % 0x40), byte (0x80 + n % 0x40)]
  else
    [byte (0xF0 + n / 0x40000), byte (0x80 + n / 0x1000 % 0x40),
      byte (0x80 + n / 0x40 % 0x40), byte (0x80 + n % 0x40)]

/-- UTF-8 encoding of a text, as Rust's `String::as_bytes`. -/
def utf8Encode (s : List Char) : List Byte :=
  s.foldr (fun c acc => utf8EncodeChar c ++ acc) []

/-- `string_try_from_bytes`: `String::from_utf8`, i.e. strict UTF-8 validation. -/
def string_try_from_bytes (bytes : List Byte) : Except Unit String :=
  match utf8Decode bytes with
  | some cs => .ok (String.mk cs)
  | none => .error ()

/-- Rust's `Debug` rendering of an integer slice, e.g. `[1, 2, 3]`. -/
def debugList (l : List Nat) : String :=
  "[" ++ String.intercalate ", " (l.map toString) ++ "]"

/-- Rust renders `f32` values with its shortest-round-trip decimal `Display`
algorithm, which is out of scope at the byte level of this development; the
embedding renders the binary32 bit pattern obtained from the little-endian
bytes.  Every claim about floats concerns which bytes are decoded, never the
decimal text of the rendering. -/
def f32Render (bits : Nat) : String := "f32#" ++ toString bits

/-- Bit-pattern rendering of a binary64 value; see `f32Render`. -/
def f64Render (bits : Nat) : String := "f64#" ++ toString bits

/-- The closed enumeration of CoE wire types (`enum CoeType`). -/
inductive CoeType where
  | Bool
  | Uint8
  | Uint16
  | Uint32
  | Uint64
  | Int8
  | Int16
  | Int32
  | Int64
  | ArrayUint8
  | ArrayUint16
  | ArrayUint32
  | ArrayUint64
  | ArrayInt8
  | ArrayInt16
  | ArrayInt32
  | ArrayInt64
  | Float32
  | Float64
  | String
  deriving DecidableEq

/-- `struct ObjectIndex { address: u16, sub_index: u8 }`. -/
structure ObjectIndex where
  address : Nat
  sub_index : Nat
  deriving DecidableEq

/-- `struct ReadCommand { name, object, data_type }`. -/
structure ReadCommand where
  name : List Char
  object : ObjectIndex
  data_type : CoeType
  deriving DecidableEq

/-- `ReadCommand::format`: renders a byte buffer according to the command's
declared data type.  Note that the source dispatches every array variant,
not only `ArrayUint8`, to `arr_u8_try_from_le_bytes`. -/
def ReadCommand.format (self : ReadCommand) (value : List Byte) : Except Unit String :=
  match self.data_type with
  | .Bool => (bool_try_from_le_bytes value).map toString
  | .Uint8 => (u8_try_from_le_bytes value).map toString
  | .Uint16 => (u16_try_from_le_bytes value).map toString
  | .Uint32 => (u32_try_from_le_bytes value).map toString
  | .Uint64 => (u64_try_from_le_bytes value).map toString
  | .Int8 => (i8_try_from_le_bytes value).map toString
  | .Int16 => (i16_try_from_le_bytes value).map toString
  | .Int32 => (i32_try_from_le_bytes value).map toString
  | .Int64 => (i64_try_from_le_bytes value).map toString
  | .ArrayUint8 => (arr_u8_try_from_le_bytes value).map (fun l => debugList (l.map Fin.val))
  | .ArrayUint16 => (arr_u8_try_from_le_bytes value).map (fun l => debugList (l.map Fin.val))
  | .ArrayUint32 => (arr_u8_try_from_le_bytes value).map (fun l => debugList (l.map Fin.val))
  | .ArrayUint64 => (arr_u8_try_from_le_bytes value).map (fun l => debugList (l.map Fin.val))
  | .ArrayInt8 => (arr_u8_try_from_le_bytes value).map (fun l => debugList (l.map Fin.val))
  | .ArrayInt16 => (arr_u8_try_from_le_bytes value).map (fun l => debugList (l.map Fin.val))
  | .ArrayInt32 => (arr_u8_try_from_le_bytes value).map (fun l => debugList (l.map Fin.val))
  | .ArrayInt64 => (arr_u8_try_from_le_bytes value).map (fun l => debugList (l.map Fin.val))
  | .Float32 => (f32_try_from_le_bytes value).map f32Render
  | .Float64 => (f64_try_from_le_bytes value).map f64Render
  | .String => string_try_from_bytes value

/-- `enum Value`: write literals.  `Float` carries the binary64 bit pattern. -/
inductive Value where
  | Int8 (i : Int)
  | Int16 (i : Int)
  | Int32 (i : Int)
  | Int64 (i : Int)
  | Float (bits : Nat)
  | String (s : List Char)
  deriving DecidableEq

/-- `Value::to_bytes`: exact little-endian byte encoding of a literal. -/
def Value.to_bytes : Value → List Byte
  | .Int8 i => intLeBytes 1 i
  | .Int16 i => intLeBytes 2 i
  | .Int32 i => intLeBytes 4 i
  | .Int64 i => intLeBytes 8 i
  | .Float bits => natLeBytes 8 bits
  | .String s => utf8Encode s

/-- `struct WriteCommand { name, object, value }`. -/
structure WriteCommand where
  name : List Char
  object : ObjectIndex
  value : Value
  deriving DecidableEq

/-- `WriteCommand::to_le_bytes`. -/
def WriteCommand.to_le_bytes (self : WriteCommand) : List Byte :=
  self.value.to_bytes

/-- `enum Command`. -/
inductive Command where
  | Read (rc : ReadCommand)
  | Write (wc : WriteCommand)
  deriving DecidableEq

/-- A nom parser over `&str`, modelled as input characters to
`Option (remaining input × parsed value)`; `none` is a recoverable nom
`Error` (the source never uses `Failure`). -/
abbrev Parser (α : Type) := List Char → Option (List Char × α)

/-- nom `map`. -/
def pmap (p : Parser α) (f : α → β) : Parser β := fun input =>
  (p input).map (fun r => (r.1, f r.2))

/-- nom `map_res` for `Result<_, ()>`-returning functions. -/
def pmapRes (p : Parser α) (f : α → Except Unit β) : Parser β := fun input =>
  match p input with
  | some (rest, a) =>
    match f a with
    | .ok b => some (rest, b)
    | .error _ => none
  | none => none

/-- nom `map_opt`. -/
def pmapOpt (p : Parser α) (f : α → Option β) : Parser β := fun input =>
  match p input with
  | some (rest, a) => (f a).map (fun b => (rest, b))
  | none => none

/-- nom `combinator::value`: run `p`, discard its output, return `b`. -/
def cvalue (b : β) (p : Parser α) : Parser β := fun input =>
  (p input).map (fun r => (r.1, b))

/-- nom `alt` on two alternatives: ordered choice, second tried on the
original input only when the first fails. -/
def palt2 (p q : Parser α) : Parser α := fun input =>
  match p input with
  | some r => some r
  | none => q input

/-- nom `tag`: match a literal, returning it. -/
def tagP (t : List Char) : Parser (List Char) := fun input =>
  if t.isPrefixOf input then some (input.drop t.length, t) else none

/-- nom `character::complete::char`. -/
def charP (c : Char) : Parser Char := fun input =>
  match input with
  | c0 :: rest => if c0 = c then some (rest, c) else none
  | [] => none

/-- nom `preceded`. -/
def preceded (p : Parser α) (q : Parser β) : Parser β := fun input =>
  match p input with
  | some (rest, _) => q rest
  | none => none

/-- nom `delimited`. -/
def delimitedP (p : Parser α) (q : Parser β) (r : Parser γ) : Parser β := fun input =>
  match p input with
  | some (i1, _) =>
    match q i1 with
    | some (i2, b) =>
      match r i2 with
      | some (i3, _) => some (i3, b)
      | none => none
    | none => none
  | none => none

/-- nom `separated_pair`. -/
def separatedPair (p : Parser α) (sep : Parser β) (q : Parser γ) : Parser (α × γ) := fun input =>
  match p input with
  | some (i1, a) =>
    match sep i1 with
    | some (i2, _) =>
      match q i2 with
      | some (i3, c) => some (i3, (a, c))
      | none => none
    | none => none
  | none => none

/-- Take the maximal run of characters satisfying `f`, requiring at least one
(the shape of nom `alphanumeric1`, `digit1` and `is_not`). -/
def takeWhile1 (f : Char → Bool) : Parser (List Char) := fun input =>
  let run := input.takeWhile f
  if run.isEmpty then none else some (input.dropWhile f, run)

/-- nom `take_while`: maximal (possibly empty) run satisfying `f`. -/
def takeWhileP (f : Char → Bool) : Parser (List Char) := fun input =>
  some (input.dropWhile f, input.takeWhile f)

/-- nom `take_while_m_n`: greedy run of at most `n` characters satisfying `f`,
failing when fewer than `m` match. -/
def takeWhileMN (m n : Nat) (f : Char → Bool) : Parser (List Char) := fun input =>
  let run := (input.takeWhile f).take n
  if run.length < m then none else some (input.drop run.length, run)

/-- nom `alphanumeric1`: one or more ASCII alphanumeric characters. -/
def alphanumeric1 : Parser (List Char) := takeWhile1 Char.isAlphanum

/-- nom `digit1`: one or more ASCII decimal digits. -/
def digit1 : Parser (List Char) := takeWhile1 Char.isDigit

/-- Rust `char::is_digit(16)`. -/
def isDigit16 (c : Char) : Bool :=
  c.isDigit || ('a' ≤ c && c ≤ 'f') || ('A' ≤ c && c ≤ 'F')

/-- Decimal value of an ASCII digit string. -/
def natOfDigits (ds : List Char) : Nat :=
  ds.foldl (fun a c => a * 10 + (c.toNat - 48)) 0

/-- Rust `uN::from_str` with maximum `bound`: optional `+`, one or more
decimal digits, overflow is an error. -/
def rustNatFromStr (bound : Nat) (s : List Char) : Except Unit Nat :=
  let ds := match s with
    | '+' :: rest => rest
    | _ => s
  if ds.isEmpty || !ds.all Char.isDigit then .error ()
  else
    let v := natOfDigits ds
    if v ≤ bound then .ok v else .error ()

/-- Rust `u8::from_str`. -/
def u8FromStr : List Char → Except Unit Nat := rustNatFromStr 255

/-- Rust `u16::from_str`.  Note: this parses its input as a decimal numeral. -/
def u16FromStr : List Char → Except Unit Nat := rustNatFromStr 65535

/-- Rust `i64::from_str`: optional sign, one or more decimal digits,
overflow of the 64-bit signed range is an error. -/
def i64FromStr (s : List Char) : Except Unit Int :=
  let (neg, ds) := match s with
    | '-' :: rest => (true, rest)
    | '+' :: rest => (false, rest)
    | _ => (false, s)
  if ds.isEmpty || !ds.all Char.isDigit then .error ()
  else
    let v := natOfDigits ds
    if neg then
      if v ≤ 2 ^ 63 then .ok (-(v : Int)) else .error ()
    else
      if v ≤ 2 ^ 63 - 1 then .ok (v : Int) else .error ()

/-- `fn name`: `alphanumeric1`. -/
def name : Parser (List Char) := alphanumeric1

/-- `fn address`: `"0x"` then a run of hex digits, handed to `u16::from_str`
(which reads them as a decimal numeral). -/
def address : Parser Nat :=
  pmapRes (preceded (tagP "0x".data) (takeWhileP isDigit16)) u16FromStr

/-- `fn sub_index`: decimal digits via `u8::from_str`. -/
def sub_index : Parser Nat := pmapRes digit1 u8FromStr

/-- `fn object_index`: `address ':' sub_index`. -/
def object_index : Parser ObjectIndex :=
  pmap (separatedPair address (charP ':') sub_index) (fun p => ⟨p.1, p.2⟩)

/-- `CoeType::from_str`: the type-tag registry. -/
def CoeType.fromStr (s : List Char) : Except Unit CoeType :=
  if s = "bool".data then .ok .Bool
  else if s = "u8".data then .ok .Uint8
  else if s = "u16".data then .ok .Uint16
  else if s = "u32".data then .ok .Uint32
  else if s = "u64".data then .ok .Uint64
  else if s = "i8".data then .ok .Int8
  else if s = "i16".data then .ok .Int16
  else if s = "i32".data then .ok .Int32
  else if s = "i64".data then .ok .Int64
  else if s = "[u8]".data then .ok .ArrayUint8
  else if s = "[u16]".data then .ok .ArrayUint16
  else if s = "[u32]".data then .ok .ArrayUint32
  else if s = "[u64]".data then .ok .ArrayUint64
  else if s = "[i8]".data then .ok .ArrayInt8
  else if s = "[i16]".data then .ok .ArrayInt16
  else if s = "[i32]".data then .ok .ArrayInt32
  else if s = "[i64]".data then .ok .ArrayInt64
  else if s = "f32".data then .ok .Float32
  else if s = "f64".data then .ok .Float64
  else if s = "String".data then .ok .String
  else .error ()

/-- `fn bool_type`. -/
def bool_type : Parser CoeType := pmap (tagP "bool".data) (fun _ => .Bool)

/-- `fn int_type`: the eight integer tags, through `CoeType::from_str`. -/
def int_type : Parser CoeType :=
  pmapRes
    (palt2 (tagP "u8".data) (palt2 (tagP "u16".data) (palt2 (tagP "u32".data)
      (palt2 (tagP "u64".data) (palt2 (tagP "i8".data) (palt2 (tagP "i16".data)
        (palt2 (tagP "i32".data) (tagP "i64".data))))))))
    CoeType.fromStr

/-- `fn int_array_type`: a bracketed integer element type. -/
def int_array_type : Parser CoeType :=
  pmapOpt (delimitedP (charP '[') int_type (charP ']')) (fun t =>
    match t with
    | .Uint8 => some .ArrayUint8
    | .Uint16 => some .ArrayUint16
    | .Uint32 => some .ArrayUint32
    | .Uint64 => some .ArrayUint64
    | .Int8 => some .ArrayInt8
    | .Int16 => some .ArrayInt16
    | .Int32 => some .ArrayInt32
    | .Int64 => some .ArrayInt64
    | _ => none)

/-- `fn float_type`. -/
def float_type : Parser CoeType :=
  pmapRes (palt2 (tagP "f32".data) (tagP "f64".data)) CoeType.fromStr

/-- `fn string_type`. -/
def string_type : Parser CoeType := pmap (tagP "String".data) (fun _ => .String)

/-- `fn data_type`: ordered alternation of the five tag families. -/
def data_type : Parser CoeType :=
  palt2 bool_type (palt2 int_type (palt2 int_array_type (palt2 float_type string_type)))

/-- Rust `i64 -> i8` `try_into().unwrap_or(i8::MAX)`: saturate out-of-range
values to the maximum. -/
def i8_try_into_or_max (v : Int) : Int :=
  if -128 ≤ v ∧ v ≤ 127 then v else 127

/-- Rust `i64 -> i16` `try_into().unwrap_or(i16::MAX)`. -/
def i16_try_into_or_max (v : Int) : Int :=
  if -32768 ≤ v ∧ v ≤ 32767 then v else 32767

/-- Rust `i64 -> i32` `try_into().unwrap_or(i32::MAX)`. -/
def i32_try_into_or_max (v : Int) : Int :=
  if -2147483648 ≤ v ∧ v ≤ 2147483647 then v else 2147483647

/-- Rust `i64 -> i64` `try_into().unwrap_or(i64::MAX)`: the identity. -/
def i64_try_into_or_max (v : Int) : Int := v

/-- `fn hex`: `"0x"` then up to 16 hex digits, handed to `i64::from_str`
(which reads them as a decimal numeral). -/
def hex : Parser Int :=
  pmapRes (preceded (tagP "0x".data) (takeWhileMN 0 16 isDigit16)) i64FromStr

/-- `fn decimal`: a run of decimal digits via `i64::from_str`. -/
def decimal : Parser Int :=
  pmapRes (takeWhileP Char.isDigit) i64FromStr

/-- `fn int`: hex or decimal digits, then a mandatory width-suffix tag,
narrowing with saturation at the suffix width's maximum. -/
def int : Parser Value := fun input =>
  match palt2 hex decimal input with
  | none => none
  | some (i1, n) =>
    (palt2 (cvalue (Value.Int8 (i8_try_into_or_max n)) (tagP "i8".data))
      (palt2 (cvalue (Value.Int16 (i16_try_into_or_max n)) (tagP "i16".data))
        (palt2 (cvalue (Value.Int32 (i32_try_into_or_max n)) (tagP "i32".data))
          (cvalue (Value.Int64 (i64_try_into_or_max n)) (tagP "i64".data))))) i1

/-- The escape alternatives of the source's `escaped_transform` call, in
order: `\\`, `\"`, `\n`, `\t`, `\r`. -/
def escCharMap (c : Char) : Option Char :=
  if c = '\\' then some '\\'
  else if c = '"' then some '"'
  else if c = 'n' then some '\n'
  else if c = 't' then some '\t'
  else if c = 'r' then some '\r'
  else none

/-- nom `escaped_transform(is_not("\\"), '\\', ...)` as called by `fn string`,
specialized to that `normal` parser: the loop repeatedly consumes either a
maximal nonempty run of non-backslash characters (processed here one
character at a time, with the same result, since the loop immediately
continues at the backslash that ended the run) or a backslash followed by a
recognized escape; anything else after a backslash, or a trailing backslash,
is an error.  The loop stops only at the end of input, because
`is_not("\\")` succeeds on every nonempty input not starting with a
backslash — in particular it also consumes `"` characters. -/
def escapedTransform : List Char → Option (List Char × List Char)
  | [] => some ([], [])
  | c :: rest =>
    if c = '\\' then
      match rest with
      | [] => none
      | e :: rest2 =>
        match escCharMap e with
        | none => none
        | some out => (escapedTransform rest2).map (fun r => (r.1, out :: r.2))
    else
      (escapedTransform rest).map (fun r => (r.1, c :: r.2))

/-- `escapedTransform` packaged as a parser. -/
def escapedTransformP : Parser (List Char) := escapedTransform

/-- `fn string`: a double-quote-delimited, backslash-escaped string literal. -/
def string : Parser Value :=
  pmap (delimitedP (charP '"') escapedTransformP (charP '"')) Value.String

/-- Round `num / den` to the nearest integer, ties to even. -/
def roundNearestEven (num den : Nat) : Nat :=
  let q := num / den
  let r := num % den
  if 2 * r < den then q
  else if den < 2 * r then q + 1
  else if q % 2 = 0 then q else q + 1

/-- Whether `num / den ≥ 2 ^ k`. -/
def le2pow (num den : Nat) (k : Int) : Bool :=
  if 0 ≤ k then den * 2 ^ k.toNat ≤ num else den ≤ num * 2 ^ (-k).toNat

/-- Floor of the base-2 logarithm, driven by a fuel argument so that it is
structurally recursive (`fuel ≥ number of halvings` suffices; `log2floor`
passes `n` itself, which always suffices). -/
def log2Aux : Nat → Nat → Nat
  | 0, _ => 0
  | fuel + 1, n => if 2 ≤ n then log2Aux fuel (n / 2) + 1 else 0

/-- `⌊log₂ n⌋` (0 at 0). -/
def log2floor (n : Nat) : Nat := log2Aux n n

/-- The IEEE-754 binary64 sign bit. -/
def signBit (neg : Bool) : Nat := if neg then 2 ^ 63 else 0

/-- Correctly rounded (nearest, ties to even) conversion of the exact decimal
`±M × 10 ^ E` to an IEEE-754 binary64 bit pattern, the conversion nom's
`double` performs (via minimal-lexical) on the digits it recognizes. -/
def f64bitsOfDecimal (neg : Bool) (M : Nat) (E : Int) : Nat :=
  if M = 0 then signBit neg
  else
    let num := M * 10 ^ E.toNat
    let den := 10 ^ (-E).toNat
    let a : Int := log2floor num
    let b : Int := log2floor den
    let k : Int := if le2pow num den (a - b) then a - b else a - b - 1
    if k < -1022 then
      signBit neg + roundNearestEven (num * 2 ^ 1074) den
    else
      let m0 := roundNearestEven (num * 2 ^ (52 - k).toNat) (den * 2 ^ (k - 52).toNat)
      let km := if m0 = 2 ^ 53 then (k + 1, (2 : Nat) ^ 52) else (k, m0)
      if 1023 < km.1 then signBit neg + 0x7FF * 2 ^ 52
      else signBit neg + (km.1 + 1023).toNat * 2 ^ 52 + (km.2 - 2 ^ 52)

/-- The optional exponent clause of nom's float grammar:
`[eE] [+-]? digit+`, backtracking to no exponent when the digits are
missing.  Returns the remaining input and the signed exponent. -/
def floatExp (input : List Char) : List Char × Int :=
  match input with
  | e :: rest =>
    if e = 'e' || e = 'E' then
      let (neg, ds0) := match rest with
        | '-' :: r => (true, r)
        | '+' :: r => (false, r)
        | _ => (false, rest)
      let ds := ds0.takeWhile Char.isDigit
      if ds.isEmpty then (input, 0)
      else (ds0.dropWhile Char.isDigit,
        if neg then -(natOfDigits ds : Int) else (natOfDigits ds : Int))
    else (input, 0)
  | [] => ([], 0)

/-- nom `number::complete::double`: optional sign, then either digits with an
optional fraction (`digit+ ('.' digit*)?`) or a bare fraction (`'.' digit+`),
then an optional exponent; the recognized decimal is converted to a binary64
value, modelled here by its bit pattern. -/
def double : Parser Nat := fun input =>
  let (i1, neg) := match input with
    | '-' :: rest => (rest, true)
    | '+' :: rest => (rest, false)
    | _ => (input, false)
  match digit1 i1 with
  | some (i2, intDs) =>
    let (i3, fracDs) := match i2 with
      | '.' :: i2' => (i2'.dropWhile Char.isDigit, i2'.takeWhile Char.isDigit)
      | _ => (i2, [])
    let (i4, ex) := floatExp i3
    some (i4, f64bitsOfDecimal neg (natOfDigits (intDs ++ fracDs)) (ex - fracDs.length))
  | none =>
    match i1 with
    | '.' :: i1' =>
      match digit1 i1' with
      | some (i2, fracDs) =>
        let (i4, ex) := floatExp i2
        some (i4, f64bitsOfDecimal neg (natOfDigits fracDs) (ex - fracDs.length))
      | none => none
    | _ => none

/-- `fn number`: an integer with width suffix, else a float. -/
def number : Parser Value := palt2 int (pmap double Value.Float)

/-- `fn value`: a string literal, else a number. -/
def value : Parser Value := palt2 string number

/-- `fn read_command`: `"r " name ' ' object_index ' ' data_type`. -/
def read_command : Parser Command :=
  pmap
    (preceded (tagP "r ".data)
      (separatedPair name (charP ' ') (separatedPair object_index (charP ' ') data_type)))
    (fun p => Command.Read ⟨p.1, p.2.1, p.2.2⟩)

/-- `fn write_command`: `"w " name ' ' object_index ' ' value`. -/
def write_command : Parser Command :=
  pmap
    (preceded (tagP "w ".data)
      (separatedPair name (charP ' ') (separatedPair object_index (charP ' ') value)))
    (fun p => Command.Write ⟨p.1, p.2.1, p.2.2⟩)

/-- `Command::from_str`, the module's entrypoint: try `read_command` then
`write_command` and discard whatever input the winning alternative left
unconsumed. -/
def Command.fromStr (input : List Char) : Except Unit Command :=
  match palt2 read_command write_command input with
  | some (_, command) => .ok command
  | none => .error ()

/-- The byte width of each fixed-width scalar wire type (`U8..I64, F32, F64`);
`none` for `Bool`, the array types and `String`. -/
def scalarWidth : CoeType → Option Nat
  | .Uint8 => some 1
  | .Uint16 => some 2
  | .Uint32 => some 4
  | .Uint64 => some 8
  | .Int8 => some 1
  | .Int16 => some 2
  | .Int32 => some 4
  | .Int64 => some 8
  | .Float32 => some 4
  | .Float64 => some 8
  | _ => none

/-- How `ReadCommand::format` renders the little-endian value of a fixed-width
scalar's bytes: unsigned scalars print the value, signed scalars its
two's-complement reading, floats their bit pattern (see `f32Render`). -/
def scalarRender : CoeType → Nat → String
  | .Uint8, n => toString n
  | .Uint16, n => toString n
  | .Uint32, n => toString n
  | .Uint64, n => toString n
  | .Int8, n => toString (twosComplement 1 n)
  | .Int16, n => toString (twosComplement 2 n)
  | .Int32, n => toString (twosComplement 4 n)
  | .Int64, n => toString (twosComplement 8 n)
  | .Float32, n => f32Render n
  | .Float64, n => f64Render n
  | _, _ => ""

/-- The fixed-width wire type matching a write literal's representation
(`Int8..Int64` to the same-width signed type, `Float` to `F64`); `none` for
`String`, which is not fixed-width. -/
def matchingWireType : Value → Option CoeType
  | .Int8 _ => some .Int8
  | .Int16 _ => some .Int16
  | .Int32 _ => some .Int32
  | .Int64 _ => some .Int64
  | .Float _ => some .Float64
  | .String _ => none

/-- The display string of a write literal's value: its decimal text for
integers, its bit-pattern rendering for floats (see `f32Render`), its text
for strings. -/
def display : Value → String
  | .Int8 i => toString i
  | .Int16 i => toString i
  | .Int32 i => toString i
  | .Int64 i => toString i
  | .Float bits => f64Render bits
  | .String s => String.mk s

/-- A literal is in range of its Rust representation: `iN` values within the
`N`-bit signed range, float bit patterns within 64 bits. -/
def validValue : Value → Prop
  | .Int8 i => -128 ≤ i ∧ i ≤ 127
  | .Int16 i => -32768 ≤ i ∧ i ≤ 32767
  | .Int32 i => -2147483648 ≤ i ∧ i ≤ 2147483647
  | .Int64 i => -(2 ^ 63) ≤ i ∧ i ≤ 2 ^ 63 - 1
  | .Float bits => bits < 2 ^ 64
  | .String _ => True

/-- Whether a wire type is one of the eight array types. -/
def isArrayType : CoeType → Bool
  | .ArrayUint8 => true
  | .ArrayUint16 => true
  | .ArrayUint32 => true
  | .ArrayUint64 => true
  | .ArrayInt8 => true
  | .ArrayInt16 => true
  | .ArrayInt32 => true
  | .ArrayInt64 => true
  | _ => false

/-- Every fixed-width scalar branch of `ReadCommand::format` has the shape
`map render (if w ≤ len then ok (convert (leNat (take w bytes))) else error)`;
this lemma packages the two facts the claims need about that shape. -/
theorem fmt_shape {β : Type} (w : Nat) (g : Nat → β) (f : β → String) (bytes : List Byte) :
    ((Except.map f (if w ≤ bytes.length then Except.ok (g (leNat (bytes.take w)))
        else Except.error ()) = Except.error ()) ↔ bytes.length < w) ∧
    (w ≤ bytes.length →
      Except.map f (if w ≤ bytes.length then Except.ok (g (leNat (bytes.take w)))
        else Except.error ()) = Except.ok (f (g (leNat (bytes.take w))))) := by
  split
  · rename_i h
    exact ⟨by simp [Except.map]; omega, fun _ => by simp [Except.map]⟩
  · rename_i h
    exact ⟨by simp [Except.map]; omega, fun h2 => absurd h2 h⟩

/-- C1: the line `r EK1100 0x1008:0 String` parses into a `Read` command with
name `EK1100` and data type `String`, but `fn address` hands the hex digits
`1008` to `u16::from_str`, which reads them as a decimal numeral, so the
parsed address is 1008, not 0x1008 = 4104 as the claim (and the source's own
grammar comment) requires. -/
theorem c1_read_address_parsed_as_decimal :
    Command.fromStr "r EK1100 0x1008:0 String".data =
      .ok (.Read ⟨"EK1100".data, ⟨1008, 0⟩, .String⟩) ∧ (1008 : Nat) ≠ 0x1008 :=
  ⟨rfl, by decide⟩

/-- C2: the line `w EL1008 0x7000:1 5 i8` does parse, but not as the claim
says: `fn int` requires the width suffix to follow the digits immediately, so
`5 i8` falls through to nom's `double` and becomes the 64-bit float 5.0
(bit pattern 0x4014000000000000), the trailing ` i8` being discarded; the
address is likewise read as decimal 7000 rather than 0x7000 = 28672; and the
encoded payload is the 8-byte little-endian float, not `[0x05]`. -/
theorem c2_write_literal_parsed_as_float :
    Command.fromStr "w EL1008 0x7000:1 5 i8".data =
      .ok (.Write ⟨"EL1008".data, ⟨7000, 1⟩, .Float 0x4014000000000000⟩) ∧
    WriteCommand.to_le_bytes ⟨"EL1008".data, ⟨7000, 1⟩, .Float 0x4014000000000000⟩ =
      ([0, 0, 0, 0, 0, 0, 0x14, 0x40] : List Byte) ∧
    ([0, 0, 0, 0, 0, 0, 0x14, 0x40] : List Byte) ≠ ([0x05] : List Byte) ∧
    (7000 : Nat) ≠ 0x7000 :=
  ⟨rfl, rfl, by decide, by decide⟩

/-- C3: `ReadCommand::format` dispatches every array wire type to
`arr_u8_try_from_le_bytes`, so decoding `[0x01]` as `ArrayUint16` succeeds
(rendering `[1]`) instead of failing on the misaligned length, and
`[0x01, 0x00, 0x02, 0x00]` renders as the four u8 elements `[1, 0, 2, 0]`
rather than the two u16 elements `[1, 2]` the claim requires. -/
theorem c3_array_u16_formats_bytewise :
    ReadCommand.format ⟨"EK1100".data, ⟨1008, 0⟩, .ArrayUint16⟩ ([1] : List Byte) =
      .ok "[1]" ∧
    ReadCommand.format ⟨"EK1100".data, ⟨1008, 0⟩, .ArrayUint16⟩ ([1, 0, 2, 0] : List Byte) =
      .ok "[1, 0, 2, 0]" ∧
    ("[1, 0, 2, 0]" : String) ≠ "[1, 2]" :=
  ⟨rfl, rfl, by decide⟩

/-- C4: the string literal `"he said \"hi\""` does not parse at all: the
`normal` parser `is_not("\\")` of the source's `escaped_transform` call also
consumes the closing double quote, so the surrounding `delimited` never finds
it and `fn string` fails — hence the whole write line is rejected, instead of
yielding the claimed `String` value with embedded quotes. -/
theorem c4_escaped_string_literal_rejected :
    string "\"he said \\\"hi\\\"\"".data = none ∧
    Command.fromStr "w EL1008 0x7000:1 \"he said \\\"hi\\\"\"".data = .error () :=
  ⟨rfl, rfl⟩

/-- C5 (counterexample): `Command::from_str` silently accepts trailing
unconsumed input — `r EK1100 0x1008:0 String XYZ` consists of a fully
matching read command followed by the nonempty trailing text ` XYZ`, yet
parsing succeeds, ignoring that text. -/
theorem c5_trailing_text_accepted :
    palt2 read_command write_command "r EK1100 0x1008:0 String XYZ".data =
      some (" XYZ".data, .Read ⟨"EK1100".data, ⟨1008, 0⟩, .String⟩) ∧
    " XYZ".data ≠ [] ∧
    Command.fromStr "r EK1100 0x1008:0 String XYZ".data =
      .ok (.Read ⟨"EK1100".data, ⟨1008, 0⟩, .String⟩) :=
  ⟨rfl, by decide, rfl⟩

/-- C5 (amended): `Command::from_str` discards whatever input the winning
alternative leaves unconsumed, so any line whose prefix parses as a command
succeeds regardless of trailing text. -/
theorem c5_from_str_discards_trailing (input rest : List Char) (c : Command)
    (h : palt2 read_command write_command input = some (rest, c)) :
    Command.fromStr input = .ok c := by
  simp [Command.fromStr, h]

/-- Witness for C5 (amended), at the counterexample's input. -/
theorem c5_from_str_discards_trailing_witness :
    Command.fromStr "r EK1100 0x1008:0 String XYZ".data =
      .ok (.Read ⟨"EK1100".data, ⟨1008, 0⟩, .String⟩) :=
  c5_from_str_discards_trailing _ " XYZ".data _ rfl

/-- C6: for every fixed-width scalar wire type of width `w`, decoding errors
exactly when the buffer is shorter than `w`, and otherwise renders the value
obtained by little-endian interpretation of exactly the first `w` bytes. -/
theorem c6_scalar_decode_first_w_bytes (t : CoeType) (w : Nat) (nm : List Char)
    (o : ObjectIndex) (bytes : List Byte) (hw : scalarWidth t = some w) :
    ((ReadCommand.format ⟨nm, o, t⟩ bytes = .error ()) ↔ bytes.length < w) ∧
    (w ≤ bytes.length →
      ReadCommand.format ⟨nm, o, t⟩ bytes = .ok (scalarRender t (leNat (bytes.take w)))) := by
  cases t <;> simp only [scalarWidth, Option.some.injEq, reduceCtorEq] at hw <;> subst hw
  · exact fmt_shape 1 id toString bytes
  · exact fmt_shape 2 id toString bytes
  · exact fmt_shape 4 id toString bytes
  · exact fmt_shape 8 id toString bytes
  · exact fmt_shape 1 (twosComplement 1) toString bytes
  · exact fmt_shape 2 (twosComplement 2) toString bytes
  · exact fmt_shape 4 (twosComplement 4) toString bytes
  · exact fmt_shape 8 (twosComplement 8) toString bytes
  · exact fmt_shape 4 id f32Render bytes
  · exact fmt_shape 8 id f64Render bytes

/-- Witness for C6 at `Uint16` on the two-byte buffer `[1, 0]`. -/
theorem c6_scalar_decode_first_w_bytes_witness :
    ((ReadCommand.format ⟨[], ⟨0, 0⟩, .Uint16⟩ ([1, 0] : List Byte) = .error ()) ↔
      ([1, 0] : List Byte).length < 2) ∧
    (2 ≤ ([1, 0] : List Byte).length →
      ReadCommand.format ⟨[], ⟨0, 0⟩, .Uint16⟩ ([1, 0] : List Byte) =
        .ok (scalarRender .Uint16 (leNat (([1, 0] : List Byte).take 2)))) :=
  c6_scalar_decode_first_w_bytes .Uint16 2 [] ⟨0, 0⟩ [1, 0] rfl

/-- C7 (round-trip law): for every in-range literal of a fixed-width
representation, decoding its exact little-endian encoding under the matching
wire type renders the literal's display string. -/
theorem c7_fixed_width_roundtrip (v : Value) (t : CoeType) (nm : List Char) (o : ObjectIndex)
    (hm : matchingWireType v = some t) (hv : validValue v) :
    ReadCommand.format ⟨nm, o, t⟩ v.to_bytes = .ok (display v) := by
  cases v <;> simp only [matchingWireType, Option.some.injEq, reduceCtorEq] at hm <;> subst hm
  case Int8 i =>
    obtain ⟨h1, h2⟩ := hv
    show Except.map toString (i8_try_from_le_bytes (intLeBytes 1 i)) = .ok (toString i)
    have key : i8_try_from_le_bytes (intLeBytes 1 i) = .ok i := by
      simp only [i8_try_from_le_bytes, intLeBytes, natLeBytes, leNat, byte, twosComplement,
        List.take, List.length, Except.ok.injEq]
      norm_num
      split <;> omega
    rw [key]; rfl
  case Int16 i =>
    obtain ⟨h1, h2⟩ := hv
    show Except.map toString (i16_try_from_le_bytes (intLeBytes 2 i)) = .ok (toString i)
    have key : i16_try_from_le_bytes (intLeBytes 2 i) = .ok i := by
      simp only [i16_try_from_le_bytes, intLeBytes, natLeBytes, leNat, byte, twosComplement,
        List.take, List.length, Except.ok.injEq]
      norm_num
      split <;> omega
    rw [key]; rfl
  case Int32 i =>
    obtain ⟨h1, h2⟩ := hv
    show Except.map toString (i32_try_from_le_bytes (intLeBytes 4 i)) = .ok (toString i)
    have key : i32_try_from_le_bytes (intLeBytes 4 i) = .ok i := by
      simp only [i32_try_from_le_bytes, intLeBytes, natLeBytes, leNat, byte, twosComplement,
        List.take, List.length, Except.ok.injEq]
      norm_num
      split <;> omega
    rw [key]; rfl
  case Int64 i =>
    obtain ⟨h1, h2⟩ := hv
    show Except.map toString (i64_try_from_le_bytes (intLeBytes 8 i)) = .ok (toString i)
    have key : i64_try_from_le_bytes (intLeBytes 8 i) = .ok i := by
      simp only [i64_try_from_le_bytes, intLeBytes, natLeBytes, leNat, byte, twosComplement,
        List.take, List.length, Except.ok.injEq]
      norm_num
      split <;> omega
    rw [key]; rfl
  case Float bits =>
    have hb : bits < 2 ^ 64 := hv
    show Except.map f64Render (f64_try_from_le_bytes (natLeBytes 8 bits)) = .ok (f64Render bits)
    have key : f64_try_from_le_bytes (natLeBytes 8 bits) = .ok bits := by
      simp only [f64_try_from_le_bytes, natLeBytes, leNat, byte, List.take, List.length,
        Except.ok.injEq]
      norm_num
      omega
    rw [key]; rfl

/-- Witness for C7 at the literal `Int8 5`. -/
theorem c7_fixed_width_roundtrip_witness :
    ReadCommand.format ⟨[], ⟨0, 0⟩, .Int8⟩ (Value.Int8 5).to_bytes =
      .ok (display (Value.Int8 5)) :=
  c7_fixed_width_roundtrip (Value.Int8 5) .Int8 [] ⟨0, 0⟩ rfl ⟨by norm_num, by norm_num⟩

/-- C8: an integer literal whose digit value (read as an `i64`) exceeds the
range of its `i8`/`i16`/`i32` width suffix parses to that width's maximum
value rather than failing (the `i64` suffix cannot overflow, since
`i64::from_str` already rejects digits beyond the 64-bit range). -/
theorem c8_int_suffix_saturates (input rest : List Char) (v : Int) :
    (palt2 hex decimal input = some ('i' :: '8' :: rest, v) → 127 < v →
      int input = some (rest, Value.Int8 127)) ∧
    (palt2 hex decimal input = some ('i' :: '1' :: '6' :: rest, v) → 32767 < v →
      int input = some (rest, Value.Int16 32767)) ∧
    (palt2 hex decimal input = some ('i' :: '3' :: '2' :: rest, v) → 2147483647 < v →
      int input = some (rest, Value.Int32 2147483647)) := by
  refine ⟨fun h hv => ?_, fun h hv => ?_, fun h hv => ?_⟩
  · have e : i8_try_into_or_max v = 127 := by
      simp only [i8_try_into_or_max]; rw [if_neg]; omega
    simp only [int, h, e]
    simp [palt2, cvalue, tagP, List.isPrefixOf_cons₂]
  · have e : i16_try_into_or_max v = 32767 := by
      simp only [i16_try_into_or_max]; rw [if_neg]; omega
    simp only [int, h, e]
    simp [palt2, cvalue, tagP, List.isPrefixOf_cons₂]
  · have e : i32_try_into_or_max v = 2147483647 := by
      simp only [i32_try_into_or_max]; rw [if_neg]; omega
    simp only [int, h, e]
    simp [palt2, cvalue, tagP, List.isPrefixOf_cons₂]

/-- Witness for C8: `200i8` parses to `Int8 127`, `70000i16` to `Int16 32767`,
`5000000000i32` to `Int32 2147483647`. -/
theorem c8_int_suffix_saturates_witness :
    int "200i8".data = some ([], Value.Int8 127) ∧
    int "70000i16".data = some ([], Value.Int16 32767) ∧
    int "5000000000i32".data = some ([], Value.Int32 2147483647) :=
  ⟨(c8_int_suffix_saturates "200i8".data [] 200).1 rfl (by norm_num),
   (c8_int_suffix_saturates "70000i16".data [] 70000).2.1 rfl (by norm_num),
   (c8_int_suffix_saturates "5000000000i32".data [] 5000000000).2.2 rfl (by norm_num)⟩

/-- C9: the type-tag registry maps exactly the eight bracketed integer tags to
array wire types, and fails on `[f32]`, `[f64]` and `[String]` (both in
`CoeType::from_str` and in the `int_array_type` grammar production). -/
theorem c9_array_tag_resolution :
    CoeType.fromStr "[u8]".data = .ok .ArrayUint8 ∧
    CoeType.fromStr "[u16]".data = .ok .ArrayUint16 ∧
    CoeType.fromStr "[u32]".data = .ok .ArrayUint32 ∧
    CoeType.fromStr "[u64]".data = .ok .ArrayUint64 ∧
    CoeType.fromStr "[i8]".data = .ok .ArrayInt8 ∧
    CoeType.fromStr "[i16]".data = .ok .ArrayInt16 ∧
    CoeType.fromStr "[i32]".data = .ok .ArrayInt32 ∧
    CoeType.fromStr "[i64]".data = .ok .ArrayInt64 ∧
    CoeType.fromStr "[f32]".data = .error () ∧
    CoeType.fromStr "[f64]".data = .error () ∧
    CoeType.fromStr "[String]".data = .error () ∧
    int_array_type "[f32]".data = none ∧
    int_array_type "[f64]".data = none ∧
    int_array_type "[String]".data = none ∧
    (∀ (s : List Char) (t : CoeType), CoeType.fromStr s = .ok t → isArrayType t = true →
      s = "[u8]".data ∨ s = "[u16]".data ∨ s = "[u32]".data ∨ s = "[u64]".data ∨
      s = "[i8]".data ∨ s = "[i16]".data ∨ s = "[i32]".data ∨ s = "[i64]".data) := by
  refine ⟨rfl, rfl, rfl, rfl, rfl, rfl, rfl, rfl, rfl, rfl, rfl, rfl, rfl, rfl, ?_⟩
  intro s t h ha
  delta CoeType.fromStr at h
  by_cases h1 : s = "bool".data
  · rw [if_pos h1] at h; injection h with h; subst h; exact absurd ha (by decide)
  rw [if_neg h1] at h
  by_cases h2 : s = "u8".data
  · rw [if_pos h2] at h; injection h with h; subst h; exact absurd ha (by decide)
  rw [if_neg h2] at h
  by_cases h3 : s = "u16".data
  · rw [if_pos h3] at h; injection h with h; subst h; exact absurd ha (by decide)
  rw [if_neg h3] at h
  by_cases h4 : s = "u32".data
  · rw [if_pos h4] at h; injection h with h; subst h; exact absurd ha (by decide)
  rw [if_neg h4] at h
  by_cases h5 : s = "u64".data
  · rw [if_pos h5] at h; injection h with h; subst h; exact absurd ha (by decide)
  rw [if_neg h5] at h
  by_cases h6 : s = "i8".data
  · rw [if_pos h6] at h; injection h with h; subst h; exact absurd ha (by decide)
  rw [if_neg h6] at h
  by_cases h7 : s = "i16".data
  · rw [if_pos h7] at h; injection h with h; subst h; exact absurd ha (by decide)
  rw [if_neg h7] at h
  by_cases h8 : s = "i32".data
  · rw [if_pos h8] at h; injection h with h; subst h; exact absurd ha (by decide)
  rw [if_neg h8] at h
  by_cases h9 : s = "i64".data
  · rw [if_pos h9] at h; injection h with h; subst h; exact absurd ha (by decide)
  rw [if_neg h9] at h
  by_cases h10 : s = "[u8]".data
  · rw [if_pos h10] at h; exact Or.inl h10
  rw [if_neg h10] at h
  by_cases h11 : s = "[u16]".data
  · rw [if_pos h11] at h; exact Or.inr (Or.inl h11)
  rw [if_neg h11] at h
  by_cases h12 : s = "[u32]".data
  · rw [if_pos h12] at h; exact Or.inr (Or.inr (Or.inl h12))
  rw [if_neg h12] at h
  by_cases h13 : s = "[u64]".data
  · rw [if_pos h13] at h; exact Or.inr (Or.inr (Or.inr (Or.inl h13)))
  rw [if_neg h13] at h
  by_cases h14 : s = "[i8]".data
  · rw [if_pos h14] at h; exact Or.inr (Or.inr (Or.inr (Or.inr (Or.inl h14))))
  rw [if_neg h14] at h
  by_cases h15 : s = "[i16]".data
  · rw [if_pos h15] at h; exact Or.inr (Or.inr (Or.inr (Or.inr (Or.inr (Or.inl h15)))))
  rw [if_neg h15] at h
  by_cases h16 : s = "[i32]".data
  · rw [if_pos h16] at h
    exact Or.inr (Or.inr (Or.inr (Or.inr (Or.inr (Or.inr (Or.inl h16))))))
  rw [if_neg h16] at h
  by_cases h17 : s = "[i64]".data
  · rw [if_pos h17] at h
    exact Or.inr (Or.inr (Or.inr (Or.inr (Or.inr (Or.inr (Or.inr h17))))))
  rw [if_neg h17] at h
  by_cases h18 : s = "f32".data
  · rw [if_pos h18] at h; injection h with h; subst h; exact absurd ha (by decide)
  rw [if_neg h18] at h
  by_cases h19 : s = "f64".data
  · rw [if_pos h19] at h; injection h with h; subst h; exact absurd ha (by decide)
  rw [if_neg h19] at h
  by_cases h20 : s = "String".data
  · rw [if_pos h20] at h; injection h with h; subst h; exact absurd ha (by decide)
  rw [if_neg h20] at h
  exact Except.noConfusion h

/-- Witness for C9's exactness clause at the tag `[u16]`. -/
theorem c9_array_tag_resolution_witness :
    "[u16]".data = "[u8]".data ∨ "[u16]".data = "[u16]".data ∨
    "[u16]".data = "[u32]".data ∨ "[u16]".data = "[u64]".data ∨
    "[u16]".data = "[i8]".data ∨ "[u16]".data = "[i16]".data ∨
    "[u16]".data = "[i32]".data ∨ "[u16]".data = "[i64]".data :=
  c9_array_tag_resolution.2.2.2.2.2.2.2.2.2.2.2.2.2.2 "[u16]".data .ArrayUint16 rfl rfl

/-- C10: `Command::from_str` is a total function on text — it always returns
either a parsed command or an error value — and `WriteCommand::to_le_bytes`
always returns a byte sequence; the embedding of both as total Lean
functions, accepted without any partiality, is the termination argument, and
neither has any panicking path (the source's only fallible narrowing uses
`unwrap_or`). -/
theorem c10_parse_encode_total :
    (∀ (s : List Char), (∃ c, Command.fromStr s = .ok c) ∨ Command.fromStr s = .error ()) ∧
    (∀ (wc : WriteCommand), ∃ (bs : List Byte), WriteCommand.to_le_bytes wc = bs) := by
  constructor
  · intro s
    rcases hp : palt2 read_command write_command s with _ | ⟨rest, c⟩
    · exact Or.inr (by simp [Command.fromStr, hp])
    · exact Or.inl ⟨c, by simp [Command.fromStr, hp]⟩
  · exact fun wc => ⟨_, rfl⟩

end Ecat
